import Mathlib

/-
Formal model of the Notion translation service in src/main.py.

The program translates Notion pages: it drains a paginated database
listing, filters pages whose "Statut" status is "A traduire", translates
title and rich_text properties and the rich text of allow-listed child
blocks through the DeepL provider, writes the results back, and stamps
"Traduit"/language metadata.  External collaborators (the Notion client
and the DeepL translator) are modelled as an environment of fallible
operations; state-changing calls are additionally recorded as events so
that theorems can speak about which store updates were issued.
-/

deriving instance DecidableEq for Except

namespace Notion

/-- A text run: one element of a Notion rich-text array, as read by the
program.  Carries the run kind tag (the dictionary key `type`), the
writable content (`text.content`) and the read-only `plain_text`. -/
structure TextRun where
  type : String
  content : String
  plain_text : String
  deriving DecidableEq

/-- A content block, as accessed by `translate_block`: an id, the kind
tag `type`, and the rich-text payload stored under the kind key. -/
structure Block where
  id : String
  type : String
  rich_text : List TextRun
  deriving DecidableEq

/-- A page property value, as accessed by the program: the kind tag
`type`, the run list payload read under the `title` / `rich_text` key,
and the `status.name` value read by the pending-page filter (none when
the property has no `status` payload or no `name` inside it). -/
structure PropertyValue where
  type : String
  runs : List TextRun
  status_name : Option String
  deriving DecidableEq

/-- A page: its id and its named properties, in dictionary order. -/
structure Page where
  id : String
  properties : List (String × PropertyValue)
  deriving DecidableEq

/-- A property payload as the program writes it back: translated title
and rich_text payloads are lists of bare content strings (the program
builds each run as a dictionary holding only `text.content`); `select`
and `status` payloads carry a name. -/
inductive StagedProperty where
  | titleProp (contents : List String)
  | richTextProp (contents : List String)
  | selectProp (name : String)
  | statusProp (name : String)
  deriving DecidableEq

/-- The per-page outcome record returned by `translate_page`. -/
structure Outcome where
  page_id : String
  status : String
  error_message : Option String
  deriving DecidableEq

/-- One page of results from the database query endpoint. -/
structure QueryResponse where
  results : List Page
  has_more : Bool
  next_cursor : Option String

/-- A store update call issued by the program. -/
inductive Event where
  | updateProperties (page_id : String) (props : List (String × StagedProperty))
  | updateBlock (block_id : String) (payload : Block)
  deriving DecidableEq

/-- The external collaborators: Notion client endpoints and the DeepL
translator call.  Every operation can fail with an exception message. -/
structure Env where
  databases_query : String → Option String → Except String QueryResponse
  pages_retrieve : String → Except String Page
  pages_update : String → List (String × StagedProperty) → Except String Unit
  blocks_children_list : String → Except String (List Block)
  blocks_update : String → Block → Except String Unit
  translator_translate_text : String → String → String → Except String String

/-- SUPPORTED_LANGUAGES from src/main.py: the static source and target
language code tables. -/
structure SupportedLanguages where
  source : List String
  target : List String

/-- The literal SUPPORTED_LANGUAGES constant of src/main.py. -/
def SUPPORTED_LANGUAGES : SupportedLanguages :=
  { source := ["bg", "cs", "da", "de", "el", "en", "es", "et", "fi", "fr",
               "hu", "id", "it", "ja", "lt", "lv", "nl", "pl", "pt", "ro",
               "ru", "sk", "sl", "sv", "tr", "zh"],
    target := ["bg", "cs", "da", "de", "el", "en-gb", "en-us", "es", "et",
               "fi", "fr", "hu", "id", "it", "ja", "lt", "lv", "nl", "pl",
               "pt-pt", "pt-br", "ro", "ru", "sk", "sl", "sv", "tr", "zh"] }

/-- The literal LANGUAGE_NAMES constant of src/main.py. -/
def LANGUAGE_NAMES : List (String × String) :=
  [("fr", "Français"), ("nl", "Nederlands")]

/-- Character class of the regular expression used by
`extract_database_id`: a lowercase hex digit. -/
def isHexChar (c : Char) : Bool :=
  (decide ('a' ≤ c) && decide (c ≤ 'f')) || (decide ('0' ≤ c) && decide (c ≤ '9'))

/-- Whether 32 hex characters start at the head of the list. -/
def hex32At (l : List Char) : Bool :=
  (l.take 32).length == 32 && (l.take 32).all isHexChar

/-- Leftmost match of the pattern of 32 consecutive lowercase-hex
characters, as re.search finds it: the first position whose next 32
characters are all hex digits. -/
def findHex32 : List Char → Option (List Char)
  | [] => none
  | c :: rest =>
    if hex32At (c :: rest) then some ((c :: rest).take 32)
    else findHex32 rest

/-- The error message raised by `extract_database_id`. -/
def invalidUrlMessage : String := "URL Notion invalide"

/-- extract_database_id from src/main.py: search the locator for 32
consecutive lowercase-hex characters; return the matched group, or
raise when there is no match. -/
def extract_database_id (url : List Char) : Except String (List Char) :=
  match findHex32 url with
  | some m => .ok m
  | none => .error invalidUrlMessage

/-- The loop of get_all_pages from src/main.py: repeatedly query the
database, extending the accumulator with each response and following the
cursor while has_more holds.  The fuel bounds the number of iterations;
running out of fuel models a listing that never reports completion. -/
def get_all_pages_loop (env : Env) (database_id : String) :
    Nat → Option String → List Page → Except String (List Page)
  | 0, _, _ => .error "pagination did not terminate"
  | fuel + 1, start_cursor, pages =>
    match env.databases_query database_id start_cursor with
    | .error e => .error e
    | .ok response =>
      if response.has_more then
        get_all_pages_loop env database_id fuel response.next_cursor
          (pages ++ response.results)
      else
        .ok (pages ++ response.results)

/-- get_all_pages from src/main.py: drain the paginated listing starting
from the empty cursor. -/
def get_all_pages (env : Env) (database_id : String) (fuel : Nat) :
    Except String (List Page) :=
  get_all_pages_loop env database_id fuel none []

/-- The status read performed by get_pages_to_translate:
properties.get("Statut", empty).get("status", empty).get("name"). -/
def statut_name (page : Page) : Option String :=
  match page.properties.lookup "Statut" with
  | none => none
  | some pv => pv.status_name

/-- get_pages_to_translate from src/main.py: fetch all pages, then keep
those whose Statut status name equals "A traduire". -/
def get_pages_to_translate (env : Env) (database_id : String) (fuel : Nat) :
    Except String (List Page) :=
  match get_all_pages env database_id fuel with
  | .error e => .error e
  | .ok all_pages =>
    .ok (all_pages.filter (fun page => statut_name page == some "A traduire"))

/-- translate_text from src/main.py: dispatch one provider call (the
worker-pool bridging is invisible to the call's value semantics);
provider failures propagate. -/
def translate_text (env : Env) (text from_lang to_lang : String) :
    Except String String :=
  env.translator_translate_text text from_lang to_lang

/-- The block-kind allow-list tested by translate_block. -/
def TRANSLATABLE_BLOCK_TYPES : List String :=
  ["paragraph", "heading_1", "heading_2", "heading_3",
   "bulleted_list_item", "numbered_list_item", "to_do", "toggle",
   "quote", "callout"]

/-- The run loop inside translate_block: in order, replace the content
of every run whose kind is "text" with its translation; other runs pass
through unchanged; a failed translation aborts the block. -/
def translate_runs (tr : String → String → String → Except String String)
    (from_lang to_lang : String) : List TextRun → Except String (List TextRun)
  | [] => .ok []
  | r :: rest =>
    if r.type = "text" then
      match tr r.content from_lang to_lang with
      | .error e => .error e
      | .ok t =>
        match translate_runs tr from_lang to_lang rest with
        | .error e => .error e
        | .ok rest' => .ok ({ r with content := t } :: rest')
    else
      match translate_runs tr from_lang to_lang rest with
      | .error e => .error e
      | .ok rest' => .ok (r :: rest')

/-- translate_block from src/main.py: for an allow-listed kind,
translate the text runs of the rich-text payload and return the block;
for any other kind return none. -/
def translate_block (tr : String → String → String → Except String String)
    (block : Block) (from_lang to_lang : String) :
    Except String (Option Block) :=
  if block.type ∈ TRANSLATABLE_BLOCK_TYPES then
    match translate_runs tr from_lang to_lang block.rich_text with
    | .error e => .error e
    | .ok runs => .ok (some { block with rich_text := runs })
  else
    .ok none

/-- The property loop of translate_page: build updated_properties in
iteration order.  A title property with a non-empty run list stages a
single run holding the translation of the first run's plain text; a
rich_text property with a non-empty run list stages a single run
holding the translation of the concatenation of all runs' plain text;
every other property is skipped. -/
def stage_properties (tr : String → String → String → Except String String)
    (from_lang to_lang : String) :
    List (String × PropertyValue) →
    Except String (List (String × StagedProperty))
  | [] => .ok []
  | (name, pv) :: rest =>
    if pv.type = "title" then
      match pv.runs with
      | [] => stage_properties tr from_lang to_lang rest
      | r0 :: _ =>
        match tr r0.plain_text from_lang to_lang with
        | .error e => .error e
        | .ok t =>
          match stage_properties tr from_lang to_lang rest with
          | .error e => .error e
          | .ok staged => .ok ((name, .titleProp [t]) :: staged)
    else if pv.type = "rich_text" then
      match pv.runs with
      | [] => stage_properties tr from_lang to_lang rest
      | _ :: _ =>
        match tr (String.join (pv.runs.map TextRun.plain_text)) from_lang to_lang with
        | .error e => .error e
        | .ok t =>
          match stage_properties tr from_lang to_lang rest with
          | .error e => .error e
          | .ok staged => .ok ((name, .richTextProp [t]) :: staged)
    else
      stage_properties tr from_lang to_lang rest

/-- The conditional property write of translate_page: issued only when
at least one property was staged. -/
def propUpdateResult (env : Env) (page_id : String)
    (staged : List (String × StagedProperty)) : Except String Unit :=
  match staged with
  | [] => .ok ()
  | _ :: _ => env.pages_update page_id staged

/-- The store events recorded by the conditional property write. -/
def propUpdateEvents (page_id : String)
    (staged : List (String × StagedProperty)) : List Event :=
  match staged with
  | [] => []
  | _ :: _ => [Event.updateProperties page_id staged]

/-- The block loop of translate_page: translate each child block in
listing order and write back every block the translator returned; the
first raised error aborts the loop.  Returns the loop result and the
block update calls issued. -/
def process_blocks (env : Env) (from_lang to_lang : String) :
    List Block → Except String Unit × List Event
  | [] => (.ok (), [])
  | b :: rest =>
    match translate_block (translate_text env) b from_lang to_lang with
    | .error e => (.error e, [])
    | .ok none => process_blocks env from_lang to_lang rest
    | .ok (some tb) =>
      match env.blocks_update b.id tb with
      | .error e => (.error e, [Event.updateBlock b.id tb])
      | .ok _ =>
        ((process_blocks env from_lang to_lang rest).1,
         Event.updateBlock b.id tb :: (process_blocks env from_lang to_lang rest).2)

/-- The final metadata payload written by translate_page: the Langue
select set to LANGUAGE_NAMES.get(to_lang, to_lang) and the Statut
status set to "Traduit", in that dictionary order. -/
def finalMetaProps (to_lang : String) : List (String × StagedProperty) :=
  [("Langue", StagedProperty.selectProp ((LANGUAGE_NAMES.lookup to_lang).getD to_lang)),
   ("Statut", StagedProperty.statusProp "Traduit")]

/-- translate_page from src/main.py: retrieve the page, stage and write
translated properties, translate and write back child blocks, then
write the final metadata.  Any raised error is caught at the function
boundary and converted into an error outcome carrying the exception
message; otherwise the outcome is success.  The second component lists
the store update calls issued, in order. -/
def translate_page (env : Env) (page_id from_lang to_lang : String) :
    Outcome × List Event :=
  match env.pages_retrieve page_id with
  | .error e => (⟨page_id, "error", some e⟩, [])
  | .ok page =>
    match stage_properties (translate_text env) from_lang to_lang page.properties with
    | .error e => (⟨page_id, "error", some e⟩, [])
    | .ok staged =>
      match propUpdateResult env page_id staged with
      | .error e => (⟨page_id, "error", some e⟩, propUpdateEvents page_id staged)
      | .ok _ =>
        match env.blocks_children_list page_id with
        | .error e => (⟨page_id, "error", some e⟩, propUpdateEvents page_id staged)
        | .ok blocks =>
          match (process_blocks env from_lang to_lang blocks).1 with
          | .error e =>
            (⟨page_id, "error", some e⟩,
             propUpdateEvents page_id staged
               ++ (process_blocks env from_lang to_lang blocks).2)
          | .ok _ =>
            match env.pages_update page_id (finalMetaProps to_lang) with
            | .error e =>
              (⟨page_id, "error", some e⟩,
               propUpdateEvents page_id staged
                 ++ (process_blocks env from_lang to_lang blocks).2
                 ++ [Event.updateProperties page_id (finalMetaProps to_lang)])
            | .ok _ =>
              (⟨page_id, "success", none⟩,
               propUpdateEvents page_id staged
                 ++ (process_blocks env from_lang to_lang blocks).2
                 ++ [Event.updateProperties page_id (finalMetaProps to_lang)])

/-- translate_specific_pages from src/main.py: translate each listed
page in order and collect the outcomes; translate_page never raises, so
the loop always completes. -/
def translate_specific_pages (env : Env) (page_ids : List String)
    (from_lang to_lang : String) : List Outcome :=
  page_ids.map (fun page_id => (translate_page env page_id from_lang to_lang).1)

/-- translate_all_pages_to_translate from src/main.py: fetch the pending
pages and translate each in order; a fetch failure propagates. -/
def translate_all_pages_to_translate (env : Env) (database_id : String)
    (fuel : Nat) (from_lang to_lang : String) : Except String (List Outcome) :=
  match get_pages_to_translate env database_id fuel with
  | .error e => .error e
  | .ok pages =>
    .ok (pages.map (fun page => (translate_page env page.id from_lang to_lang).1))

/-! ### Language registry (claim C8) -/

/-- C8 counterexample: contrary to the claim that the sentinel code
auto is accepted as a source language, "auto" is not in the source
table of SUPPORTED_LANGUAGES. -/
theorem C8_counterexample : "auto" ∉ SUPPORTED_LANGUAGES.source := by decide

/-- C8 (amended): the set of valid source-language codes is a fixed
26-entry duplicate-free table of two-letter codes; the sentinel "auto"
is not among them. -/
theorem C8_main :
    SUPPORTED_LANGUAGES.source.length = 26 ∧
    SUPPORTED_LANGUAGES.source.Nodup ∧
    (∀ c ∈ SUPPORTED_LANGUAGES.source, c.length = 2) ∧
    "auto" ∉ SUPPORTED_LANGUAGES.source := by decide

/-- C8 witness: the amended registry property instantiated at the code
fr, a two-letter member of the source table. -/
theorem C8_witness :
    "fr" ∈ SUPPORTED_LANGUAGES.source ∧ ("fr" : String).length = 2 :=
  ⟨by decide, C8_main.2.2.1 "fr" (by decide)⟩

/-! ### Collection id extraction (claim C2) -/

/-- Soundness of the leftmost hex-32 search: a found match is a
32-character lowercase-hex substring of the input. -/
theorem findHex32_spec : ∀ url m : List Char, findHex32 url = some m →
    (∃ pre post, url = pre ++ m ++ post) ∧ m.length = 32 ∧ m.all isHexChar = true := by
  intro url
  induction url with
  | nil => intro m h; simp [findHex32] at h
  | cons c rest ih =>
    intro m h
    by_cases hc : hex32At (c :: rest)
    · simp only [findHex32, hc, if_true, Option.some.injEq] at h
      subst h
      have hc2 := hc
      unfold hex32At at hc2
      rw [Bool.and_eq_true] at hc2
      have hlen : ((c :: rest).take 32).length = 32 := by
        simpa using hc2.1
      have hall : ((c :: rest).take 32).all isHexChar = true := hc2.2
      refine ⟨⟨[], (c :: rest).drop 32, ?_⟩, hlen, hall⟩
      simp [List.take_append_drop]
    · simp only [findHex32, hc, if_false] at h
      obtain ⟨⟨pre, post, hsplit⟩, hlen, hall⟩ := ih m h
      exact ⟨⟨c :: pre, post, by simp [hsplit]⟩, hlen, hall⟩

/-- Completeness of the leftmost hex-32 search: if a 32-character
lowercase-hex substring is embedded anywhere in the input, the search
finds a match. -/
theorem findHex32_of_embedded : ∀ url pre m post : List Char,
    url = pre ++ m ++ post → m.length = 32 → m.all isHexChar = true →
    ∃ m', findHex32 url = some m' := by
  intro url
  induction url with
  | nil =>
    intro pre m post hsplit hlen _
    have : m = [] := by
      rcases List.append_eq_nil.mp (List.append_eq_nil.mp hsplit.symm).1 with ⟨-, h2⟩
      exact h2
    rw [this] at hlen
    simp at hlen
  | cons c rest ih =>
    intro pre m post hsplit hlen hall
    by_cases hc : hex32At (c :: rest)
    · exact ⟨(c :: rest).take 32, by simp [findHex32, hc]⟩
    · cases pre with
      | nil =>
        exfalso
        apply hc
        have hcr : c :: rest = m ++ post := by simpa using hsplit
        have htake : (c :: rest).take 32 = m := by
          rw [hcr]
          exact List.take_left' hlen
        unfold hex32At
        rw [htake, hlen, hall]
        simp
      | cons c' pre' =>
        have hc' : c = c' ∧ rest = pre' ++ m ++ post := by
          have := hsplit
          simp only [List.cons_append, List.cons.injEq] at this
          exact this
        have ⟨m', hm'⟩ := ih pre' m post hc'.2 hlen hall
        exact ⟨m', by simp [findHex32, hc, hm']⟩

/-- C2 (amended): extract_database_id returns the leftmost embedded
32-character lowercase-hex substring.  If the locator embeds at least
one such substring, it returns a 32-character lowercase-hex substring
embedded in the locator (hence exactly the unique one when only one is
embedded); if it embeds none, it fails with the invalid-locator error. -/
theorem C2_main (url : List Char) :
    ((∃ pre m post, url = pre ++ m ++ post ∧ m.length = 32 ∧ m.all isHexChar = true) →
      ∃ m, extract_database_id url = .ok m ∧
        (∃ pre post, url = pre ++ m ++ post) ∧ m.length = 32 ∧ m.all isHexChar = true) ∧
    ((¬ ∃ pre m post, url = pre ++ m ++ post ∧ m.length = 32 ∧ m.all isHexChar = true) →
      extract_database_id url = .error invalidUrlMessage) := by
  constructor
  · rintro ⟨pre, m, post, hsplit, hlen, hall⟩
    obtain ⟨m', hm'⟩ := findHex32_of_embedded url pre m post hsplit hlen hall
    obtain ⟨hemb, hlen', hall'⟩ := findHex32_spec url m' hm'
    exact ⟨m', by simp [extract_database_id, hm'], hemb, hlen', hall'⟩
  · intro hnone
    match hfind : findHex32 url with
    | some m =>
      exfalso
      obtain ⟨⟨pre, post, hsplit⟩, hlen, hall⟩ := findHex32_spec url m hfind
      exact hnone ⟨pre, m, post, hsplit, hlen, hall⟩
    | none => simp [extract_database_id, hfind]

/-- C2 counterexample: the claim as stated fails when two distinct
32-hex substrings are embedded.  The locator made of 32 copies of a
followed by 32 copies of b embeds the substring of 32 copies of b, yet
extract_database_id does not return that substring (it returns the
leftmost match instead). -/
theorem C2_counterexample :
    (∃ pre post, (List.replicate 32 'a' ++ List.replicate 32 'b' : List Char) =
        pre ++ List.replicate 32 'b' ++ post) ∧
    (List.replicate 32 'b' : List Char).length = 32 ∧
    (List.replicate 32 'b' : List Char).all isHexChar = true ∧
    extract_database_id (List.replicate 32 'a' ++ List.replicate 32 'b') ≠
      .ok (List.replicate 32 'b') :=
  ⟨⟨List.replicate 32 'a', [], by decide⟩, by decide, by decide, by decide⟩

/-- Concrete locator for the C2 witness. -/
def urlC2 : List Char := String.toList "notion-site-0123456789abcdef0123456789abcdef-x"

/-- C2 witness: a locator embedding exactly one 32-hex id, on which the
amended theorem yields the successful extraction. -/
theorem C2_witness :
    ∃ m, extract_database_id urlC2 = .ok m ∧
      (∃ pre post, urlC2 = pre ++ m ++ post) ∧ m.length = 32 ∧ m.all isHexChar = true :=
  (C2_main urlC2).1
    ⟨String.toList "notion-site-", String.toList "0123456789abcdef0123456789abcdef",
     String.toList "-x", by decide, by decide, by decide⟩

/-! ### Pending-page filter (claim C3) -/

/-- C3: whenever fetching all pages succeeds, get_pages_to_translate
returns exactly the filter of that listing by the Statut status name
"A traduire"; the result is a subsequence of the full listing (so the
upstream order is preserved and pages lacking the status or carrying
any other status are excluded), and every returned page has status name
"A traduire". -/
theorem C3_main (env : Env) (database_id : String) (fuel : Nat) (all_pages : List Page)
    (h : get_all_pages env database_id fuel = .ok all_pages) :
    get_pages_to_translate env database_id fuel =
      .ok (all_pages.filter (fun page => statut_name page == some "A traduire")) ∧
    List.Sublist
      (all_pages.filter (fun page => statut_name page == some "A traduire")) all_pages ∧
    (∀ page ∈ all_pages.filter (fun page => statut_name page == some "A traduire"),
      statut_name page = some "A traduire") := by
  refine ⟨by simp [get_pages_to_translate, h], List.filter_sublist _, ?_⟩
  intro page hmem
  exact eq_of_beq (List.mem_filter.mp hmem).2

/-- An upper-casing stub provider used by concrete witnesses. -/
def stubUpper (s : String) : String := String.mk (s.data.map Char.toUpper)

/-- Base environment for concrete witnesses: every call succeeds
trivially and the provider upper-cases its input. -/
def envBase : Env :=
  { databases_query := fun _ _ => .ok ⟨[], false, none⟩,
    pages_retrieve := fun pid => .ok ⟨pid, []⟩,
    pages_update := fun _ _ => .ok (),
    blocks_children_list := fun _ => .ok [],
    blocks_update := fun _ _ => .ok (),
    translator_translate_text := fun t _ _ => .ok (stubUpper t) }

/-- A page pending translation. -/
def pageA : Page := ⟨"a1", [("Statut", ⟨"status", [], some "A traduire"⟩)]⟩

/-- A page already translated. -/
def pageB : Page := ⟨"b1", [("Statut", ⟨"status", [], some "Traduit"⟩)]⟩

/-- Another page pending translation. -/
def pageC : Page := ⟨"c1", [("Statut", ⟨"status", [], some "A traduire"⟩)]⟩

/-- Environment whose database listing returns three pages in one
batch, two of them pending. -/
def envC3 : Env :=
  { envBase with
    databases_query := fun _ _ => .ok ⟨[pageA, pageB, pageC], false, none⟩ }

/-- C3 witness: on a concrete three-page listing with two pending
pages, the pending fetch returns exactly those two, in listing order. -/
theorem C3_witness :
    get_pages_to_translate envC3 "db" 1 = .ok [pageA, pageC] := by
  have h := (C3_main envC3 "db" 1 [pageA, pageB, pageC] (by rfl)).1
  rw [h]
  rfl

/-! ### Block translator (claims C4, C6, C10) -/

/-- The elementwise image of a run list under a provider f: each run of
kind text has its content replaced by f of that content, every other
run is unchanged. -/
def mappedRuns (f : String → String) (runs : List TextRun) : List TextRun :=
  runs.map (fun r => if r.type = "text" then { r with content := f r.content } else r)

/-- With a total provider, the run loop maps each text run to its
translation and keeps every other run unchanged. -/
theorem translate_runs_total (f : String → String) (fl tl : String) :
    ∀ runs : List TextRun,
      translate_runs (fun t _ _ => .ok (f t)) fl tl runs = .ok (mappedRuns f runs) := by
  intro runs
  induction runs with
  | nil => rfl
  | cons r rest ih =>
    by_cases hr : r.type = "text" <;> simp [translate_runs, mappedRuns, hr, ih]

/-- The run loop leaves a run list with no text-kind runs unchanged. -/
theorem translate_runs_skip (tr : String → String → String → Except String String)
    (fl tl : String) :
    ∀ runs : List TextRun, (∀ r ∈ runs, r.type ≠ "text") →
      translate_runs tr fl tl runs = .ok runs := by
  intro runs
  induction runs with
  | nil => intro; rfl
  | cons r rest ih =>
    intro h
    have hr : r.type ≠ "text" := h r (List.mem_cons_self r rest)
    simp [translate_runs, hr, ih (fun x hx => h x (List.mem_cons_of_mem r hx))]

/-- An allow-listed block none of whose runs has kind text is returned
unchanged by translate_block, whatever the provider does. -/
theorem translate_block_identity (tr : String → String → String → Except String String)
    (block : Block) (fl tl : String)
    (hk : block.type ∈ TRANSLATABLE_BLOCK_TYPES)
    (hruns : ∀ r ∈ block.rich_text, r.type ≠ "text") :
    translate_block tr block fl tl = .ok (some block) := by
  simp [translate_block, hk, translate_runs_skip tr fl tl block.rich_text hruns]

/-- C4: on an allow-listed block with a total provider, translate_block
returns the block whose run list is the elementwise image of the
original run list: each run of kind text has its content replaced by
the translation of that same run's original content, every other run is
untouched, and the run count and order are preserved (no run is merged
or split). -/
theorem C4_main (f : String → String) (block : Block) (from_lang to_lang : String)
    (h : block.type ∈ TRANSLATABLE_BLOCK_TYPES) :
    translate_block (fun t _ _ => .ok (f t)) block from_lang to_lang =
      .ok (some { block with rich_text := mappedRuns f block.rich_text }) ∧
    (mappedRuns f block.rich_text).length = block.rich_text.length := by
  refine ⟨?_, by simp [mappedRuns]⟩
  simp [translate_block, h, translate_runs_total]

/-- Concrete paragraph block for the C4 witness, with runs Bonjour and
le monde. -/
def blockC4 : Block :=
  ⟨"blk1", "paragraph",
   [⟨"text", "Bonjour", "Bonjour"⟩, ⟨"text", " le monde", " le monde"⟩]⟩

/-- C4 witness: the spec scenario — translating the two-run paragraph
through an upper-casing stub provider yields the same two runs, in
order, upper-cased. -/
theorem C4_witness :
    translate_block (fun t _ _ => .ok (stubUpper t)) blockC4 "fr" "nl" =
      .ok (some ⟨"blk1", "paragraph",
        [⟨"text", "BONJOUR", "Bonjour"⟩, ⟨"text", " LE MONDE", " le monde"⟩]⟩) := by
  have h := (C4_main stubUpper blockC4 "fr" "nl" (by decide)).1
  rw [h]
  decide

/-- Every block update call issued by the block loop originates from a
listed block with an allow-listed kind. -/
theorem process_blocks_event_origin (env : Env) (fl tl : String) :
    ∀ (blocks : List Block) (bid : String) (payload : Block),
      Event.updateBlock bid payload ∈ (process_blocks env fl tl blocks).2 →
      ∃ b ∈ blocks, b.id = bid ∧ b.type ∈ TRANSLATABLE_BLOCK_TYPES := by
  intro blocks
  induction blocks with
  | nil => intro bid payload h; simp [process_blocks] at h
  | cons b rest ih =>
    intro bid payload h
    simp only [process_blocks] at h
    cases htb : translate_block (translate_text env) b fl tl with
    | error e => simp only [htb] at h; simp at h
    | ok ob =>
      cases ob with
      | none =>
        simp only [htb] at h
        obtain ⟨b', hb', hprop⟩ := ih bid payload h
        exact ⟨b', List.mem_cons_of_mem b hb', hprop⟩
      | some tb =>
        simp only [htb] at h
        have hkind : b.type ∈ TRANSLATABLE_BLOCK_TYPES := by
          by_contra hk
          simp [translate_block, hk] at htb
        cases hu : env.blocks_update b.id tb with
        | error e =>
          simp only [hu] at h
          simp at h
          exact ⟨b, List.mem_cons_self b rest, h.1.symm, hkind⟩
        | ok u =>
          simp only [hu] at h
          rcases List.mem_cons.mp h with heq | hmem
          · cases heq
            exact ⟨b, List.mem_cons_self b rest, rfl, hkind⟩
          · obtain ⟨b', hb', hprop⟩ := ih bid payload hmem
            exact ⟨b', List.mem_cons_of_mem b hb', hprop⟩

/-- The conditional property write never issues a block update call. -/
theorem propUpdateEvents_no_block (page_id : String)
    (staged : List (String × StagedProperty)) (bid : String) (payload : Block) :
    Event.updateBlock bid payload ∉ propUpdateEvents page_id staged := by
  cases staged <;> simp [propUpdateEvents]

/-- C6: for a block whose kind is not in the allow-list, translate_block
returns none for every provider; and translate_page never issues a
block update call carrying the id of such a block (provided no
allow-listed block in the listing shares its id). -/
theorem C6_main (block : Block) (h : block.type ∉ TRANSLATABLE_BLOCK_TYPES) :
    (∀ tr from_lang to_lang, translate_block tr block from_lang to_lang = .ok none) ∧
    (∀ env page_id from_lang to_lang blocks,
      env.blocks_children_list page_id = .ok blocks →
      (∀ b ∈ blocks, b.id = block.id → b.type ∉ TRANSLATABLE_BLOCK_TYPES) →
      ∀ payload, Event.updateBlock block.id payload ∉
        (translate_page env page_id from_lang to_lang).2) := by
  constructor
  · intro tr from_lang to_lang
    simp [translate_block, h]
  · intro env page_id fl tl blocks hlist hother payload hmem
    have hnoblock : Event.updateBlock block.id payload ∉
        (process_blocks env fl tl blocks).2 := by
      intro hin
      obtain ⟨b', hb', hid, hkind⟩ := process_blocks_event_origin env fl tl blocks _ _ hin
      exact hother b' hb' hid hkind
    simp only [translate_page] at hmem
    cases hret : env.pages_retrieve page_id with
    | error e => simp only [hret] at hmem; simp at hmem
    | ok page =>
      simp only [hret] at hmem
      cases hstage : stage_properties (translate_text env) fl tl page.properties with
      | error e => simp only [hstage] at hmem; simp at hmem
      | ok staged =>
        simp only [hstage] at hmem
        cases hprop : propUpdateResult env page_id staged with
        | error e =>
          simp only [hprop] at hmem
          exact propUpdateEvents_no_block page_id staged _ _ hmem
        | ok u =>
          simp only [hprop, hlist] at hmem
          cases hpb : (process_blocks env fl tl blocks).1 with
          | error e =>
            simp only [hpb] at hmem
            rcases List.mem_append.mp hmem with h1 | h2
            · exact propUpdateEvents_no_block page_id staged _ _ h1
            · exact hnoblock h2
          | ok u2 =>
            simp only [hpb] at hmem
            cases hfin : env.pages_update page_id (finalMetaProps tl) with
            | error e =>
              simp only [hfin] at hmem
              rcases List.mem_append.mp hmem with h12 | h3
              · rcases List.mem_append.mp h12 with h1 | h2
                · exact propUpdateEvents_no_block page_id staged _ _ h1
                · exact hnoblock h2
              · simp at h3
            | ok u3 =>
              simp only [hfin] at hmem
              rcases List.mem_append.mp hmem with h12 | h3
              · rcases List.mem_append.mp h12 with h1 | h2
                · exact propUpdateEvents_no_block page_id staged _ _ h1
                · exact hnoblock h2
              · simp at h3

/-- A divider block, outside the allow-list. -/
def blockC6 : Block := ⟨"blk6", "divider", []⟩

/-- Environment whose child listing returns only the divider block. -/
def envC6 : Env :=
  { envBase with blocks_children_list := fun _ => .ok [blockC6] }

/-- C6 witness: on a concrete page whose single child is a divider
block, translate_block returns none and no block update call for that
block is issued. -/
theorem C6_witness :
    translate_block (translate_text envC6) blockC6 "fr" "nl" = .ok none ∧
    ∀ payload, Event.updateBlock blockC6.id payload ∉
      (translate_page envC6 "p6" "fr" "nl").2 := by
  have h := C6_main blockC6 (by decide)
  exact ⟨h.1 (translate_text envC6) "fr" "nl",
    h.2 envC6 "p6" "fr" "nl" [blockC6] rfl (by decide)⟩

/-- If the block loop issued a successful update for every block and a
listed allow-listed block translates to itself, the loop's event list
records the write-back of that block. -/
theorem process_blocks_emits (env : Env) (fl tl : String) :
    ∀ (blocks : List Block) (b : Block), b ∈ blocks →
      translate_block (translate_text env) b fl tl = .ok (some b) →
      (process_blocks env fl tl blocks).1 = .ok () →
      Event.updateBlock b.id b ∈ (process_blocks env fl tl blocks).2 := by
  intro blocks
  induction blocks with
  | nil => intro b hb; simp at hb
  | cons hd rest ih =>
    intro b hb htb hok
    rcases List.mem_cons.mp hb with heq | hmem
    · subst heq
      simp only [process_blocks, htb] at hok ⊢
      cases hu : env.blocks_update b.id b with
      | error e => simp [hu] at hok
      | ok u => simp only [hu] at hok ⊢; simp
    · simp only [process_blocks] at hok ⊢
      cases htd : translate_block (translate_text env) hd fl tl with
      | error e => simp [htd] at hok
      | ok ob =>
        cases ob with
        | none =>
          simp only [htd] at hok ⊢
          exact ih b hmem htb hok
        | some tb =>
          simp only [htd] at hok ⊢
          cases hu : env.blocks_update hd.id tb with
          | error e => simp [hu] at hok
          | ok u =>
            simp only [hu] at hok ⊢
            exact List.mem_cons_of_mem _ (ih b hmem htb hok)

/-- C10: an allow-listed block with no text-kind runs (in particular
one with an empty run list) is returned unchanged and non-null by
translate_block, and a successful translate_page run on a listing
containing it issues the store update call writing it back unchanged. -/
theorem C10_main (block : Block)
    (hk : block.type ∈ TRANSLATABLE_BLOCK_TYPES)
    (hruns : ∀ r ∈ block.rich_text, r.type ≠ "text") :
    (∀ tr from_lang to_lang, translate_block tr block from_lang to_lang = .ok (some block)) ∧
    (∀ env page_id from_lang to_lang blocks,
      env.blocks_children_list page_id = .ok blocks →
      block ∈ blocks →
      (translate_page env page_id from_lang to_lang).1.status = "success" →
      Event.updateBlock block.id block ∈
        (translate_page env page_id from_lang to_lang).2) := by
  constructor
  · intro tr from_lang to_lang
    exact translate_block_identity tr block from_lang to_lang hk hruns
  · intro env page_id fl tl blocks hlist hmem hsucc
    simp only [translate_page] at hsucc ⊢
    cases hret : env.pages_retrieve page_id with
    | error e => simp [hret] at hsucc
    | ok page =>
      simp only [hret] at hsucc ⊢
      cases hstage : stage_properties (translate_text env) fl tl page.properties with
      | error e => simp [hstage] at hsucc
      | ok staged =>
        simp only [hstage] at hsucc ⊢
        cases hprop : propUpdateResult env page_id staged with
        | error e => simp [hprop] at hsucc
        | ok u =>
          simp only [hprop, hlist] at hsucc ⊢
          cases hpb : (process_blocks env fl tl blocks).1 with
          | error e => simp [hpb] at hsucc
          | ok u2 =>
            simp only [hpb] at hsucc ⊢
            have hev : Event.updateBlock block.id block ∈
                (process_blocks env fl tl blocks).2 :=
              process_blocks_emits env fl tl blocks block hmem
                (translate_block_identity (translate_text env) block fl tl hk hruns) hpb
            cases hfin : env.pages_update page_id (finalMetaProps tl) with
            | error e =>
              simp only [hfin]
              exact List.mem_append.mpr (Or.inl (List.mem_append.mpr (Or.inr hev)))
            | ok u3 =>
              simp only [hfin]
              exact List.mem_append.mpr (Or.inl (List.mem_append.mpr (Or.inr hev)))

/-- A to_do block whose only run is a mention, not plain text. -/
def blockC10 : Block := ⟨"blk10", "to_do", [⟨"mention", "", "@someone"⟩]⟩

/-- Environment whose child listing returns only that to_do block. -/
def envC10 : Env :=
  { envBase with blocks_children_list := fun _ => .ok [blockC10] }

/-- C10 witness: the mention-only to_do block is returned unchanged and
its unchanged write-back call is issued by a successful run. -/
theorem C10_witness :
    translate_block (translate_text envC10) blockC10 "fr" "nl" = .ok (some blockC10) ∧
    Event.updateBlock blockC10.id blockC10 ∈
      (translate_page envC10 "p10" "fr" "nl").2 := by
  have h := C10_main blockC10 (by decide) (by decide)
  exact ⟨h.1 (translate_text envC10) "fr" "nl",
    h.2 envC10 "p10" "fr" "nl" [blockC10] rfl (by decide) (by rfl)⟩

/-! ### Property staging (claims C5, C9) -/

/-- The staged replacement a total provider produces for one property:
nothing for an untranslatable or empty property, a single-run title
from the first run only for a non-empty title, and a single-run
rich_text from the concatenation of all runs for a non-empty
rich_text. -/
def stagedOf (f : String → String) (p : String × PropertyValue) :
    Option (String × StagedProperty) :=
  if p.2.type = "title" then
    match p.2.runs with
    | [] => none
    | r0 :: _ => some (p.1, StagedProperty.titleProp [f r0.plain_text])
  else if p.2.type = "rich_text" then
    match p.2.runs with
    | [] => none
    | _ :: _ =>
      some (p.1, StagedProperty.richTextProp
        [f (String.join (p.2.runs.map TextRun.plain_text))])
  else none

/-- With a total provider, the property loop stages exactly the image
of stagedOf over the property list, in order. -/
theorem stage_properties_total (f : String → String) (fl tl : String) :
    ∀ props : List (String × PropertyValue),
      stage_properties (fun t _ _ => .ok (f t)) fl tl props =
        .ok (props.filterMap (stagedOf f)) := by
  intro props
  induction props with
  | nil => rfl
  | cons p rest ih =>
    obtain ⟨name, pv⟩ := p
    by_cases ht : pv.type = "title"
    · cases hr : pv.runs with
      | nil => simp [stage_properties, stagedOf, ht, hr, ih]
      | cons r0 rs => simp [stage_properties, stagedOf, ht, hr, ih]
    · by_cases hrt : pv.type = "rich_text"
      · cases hr : pv.runs with
        | nil => simp [stage_properties, stagedOf, ht, hrt, hr, ih]
        | cons r0 rs => simp [stage_properties, stagedOf, ht, hrt, hr, ih]
      · simp [stage_properties, stagedOf, ht, hrt, ih]

/-- Every entry the property loop stages is a title or rich_text
payload — never a select or status payload. -/
theorem stage_properties_shape (tr : String → String → String → Except String String)
    (fl tl : String) :
    ∀ (props : List (String × PropertyValue)) (staged : List (String × StagedProperty)),
      stage_properties tr fl tl props = .ok staged →
      ∀ p ∈ staged, (∃ c, p.2 = StagedProperty.titleProp c) ∨
        (∃ c, p.2 = StagedProperty.richTextProp c) := by
  intro props
  induction props with
  | nil =>
    intro staged h p hp
    simp only [stage_properties, Except.ok.injEq] at h
    subst h
    simp at hp
  | cons q rest ih =>
    obtain ⟨name, pv⟩ := q
    intro staged h p hp
    simp only [stage_properties] at h
    by_cases ht : pv.type = "title"
    · rw [if_pos ht] at h
      cases hr : pv.runs with
      | nil =>
        simp only [hr] at h
        exact ih staged h p hp
      | cons r0 rs =>
        simp only [hr] at h
        cases htr : tr r0.plain_text fl tl with
        | error e => simp only [htr] at h; simp at h
        | ok t =>
          simp only [htr] at h
          cases hrest : stage_properties tr fl tl rest with
          | error e => simp only [hrest] at h; simp at h
          | ok staged' =>
            simp only [hrest, Except.ok.injEq] at h
            subst h
            rcases List.mem_cons.mp hp with heq | hmem
            · subst heq; exact Or.inl ⟨[t], rfl⟩
            · exact ih staged' hrest p hmem
    · rw [if_neg ht] at h
      by_cases hrt : pv.type = "rich_text"
      · rw [if_pos hrt] at h
        cases hr : pv.runs with
        | nil =>
          simp only [hr] at h
          exact ih staged h p hp
        | cons r0 rs =>
          simp only [hr] at h
          cases htr : tr (String.join ((r0 :: rs).map TextRun.plain_text)) fl tl with
          | error e => simp only [htr] at h; simp at h
          | ok t =>
            simp only [htr] at h
            cases hrest : stage_properties tr fl tl rest with
            | error e => simp only [hrest] at h; simp at h
            | ok staged' =>
              simp only [hrest, Except.ok.injEq] at h
              subst h
              rcases List.mem_cons.mp hp with heq | hmem
              · subst heq; exact Or.inr ⟨[t], rfl⟩
              · exact ih staged' hrest p hmem
      · rw [if_neg hrt] at h
        exact ih staged h p hp

/-- The staged property list is never the final metadata payload: the
final payload opens with a select entry, which staging never emits. -/
theorem staged_ne_finalMeta (tr : String → String → String → Except String String)
    (fl tl tl' : String) (props : List (String × PropertyValue))
    (staged : List (String × StagedProperty))
    (h : stage_properties tr fl tl props = .ok staged) :
    staged ≠ finalMetaProps tl' := by
  intro heq
  have hmem : ("Langue",
      StagedProperty.selectProp ((LANGUAGE_NAMES.lookup tl').getD tl')) ∈ staged := by
    rw [heq]; simp [finalMetaProps]
  rcases stage_properties_shape tr fl tl props staged h _ hmem with ⟨c, hc⟩ | ⟨c, hc⟩ <;>
    simp at hc

/-- An event of the conditional property write is the write of the full
staged list. -/
theorem mem_propUpdateEvents (page_id : String)
    (staged : List (String × StagedProperty)) (ev : Event)
    (h : ev ∈ propUpdateEvents page_id staged) :
    ev = Event.updateProperties page_id staged := by
  cases staged with
  | nil => simp [propUpdateEvents] at h
  | cons a as => simpa [propUpdateEvents] using h

/-- Whenever the retrieval and staging steps succeed with a non-empty
staged list, translate_page issues the property update call writing
that staged list, whatever happens afterwards. -/
theorem translate_page_prop_event (env : Env) (pid fl tl : String) (page : Page)
    (staged : List (String × StagedProperty))
    (hret : env.pages_retrieve pid = .ok page)
    (hstage : stage_properties (translate_text env) fl tl page.properties = .ok staged)
    (hne : staged ≠ []) :
    Event.updateProperties pid staged ∈ (translate_page env pid fl tl).2 := by
  have hpe : Event.updateProperties pid staged ∈ propUpdateEvents pid staged := by
    cases staged with
    | nil => exact absurd rfl hne
    | cons a b => simp [propUpdateEvents]
  simp only [translate_page, hret, hstage]
  cases hprop : propUpdateResult env pid staged with
  | error e => simp only [hprop]; exact hpe
  | ok u =>
    simp only [hprop]
    cases hlist : env.blocks_children_list pid with
    | error e => simp only [hlist]; exact hpe
    | ok blocks =>
      simp only [hlist]
      cases hpb : (process_blocks env fl tl blocks).1 with
      | error e =>
        simp only [hpb]
        exact List.mem_append.mpr (Or.inl hpe)
      | ok u2 =>
        simp only [hpb]
        cases hfin : env.pages_update pid (finalMetaProps tl) with
        | error e =>
          simp only [hfin]
          exact List.mem_append.mpr (Or.inl (List.mem_append.mpr (Or.inl hpe)))
        | ok u3 =>
          simp only [hfin]
          exact List.mem_append.mpr (Or.inl (List.mem_append.mpr (Or.inl hpe)))

/-- C5: when the page is retrieved and the provider is total, every
rich_text property with a non-empty run list is staged — and written
through the issued property update call — as a replacement containing
exactly one run holding the translation of the concatenation of all
the original runs' plain text. -/
theorem C5_main (env : Env) (f : String → String) (pid fl tl name : String)
    (page : Page) (pv : PropertyValue)
    (hret : env.pages_retrieve pid = .ok page)
    (htr : env.translator_translate_text = fun t _ _ => .ok (f t))
    (hmem : (name, pv) ∈ page.properties)
    (hk : pv.type = "rich_text") (hne : pv.runs ≠ []) :
    ∃ staged, Event.updateProperties pid staged ∈ (translate_page env pid fl tl).2 ∧
      (name, StagedProperty.richTextProp
        [f (String.join (pv.runs.map TextRun.plain_text))]) ∈ staged := by
  have htr' : translate_text env = fun t _ _ => Except.ok (f t) := by
    funext t a b
    simp [translate_text, htr]
  have hstage : stage_properties (translate_text env) fl tl page.properties =
      .ok (page.properties.filterMap (stagedOf f)) := by
    rw [htr']
    exact stage_properties_total f fl tl page.properties
  have hentry : (name, StagedProperty.richTextProp
      [f (String.join (pv.runs.map TextRun.plain_text))]) ∈
      page.properties.filterMap (stagedOf f) := by
    refine List.mem_filterMap.mpr ⟨(name, pv), hmem, ?_⟩
    have ht : pv.type ≠ "title" := by rw [hk]; decide
    cases hr : pv.runs with
    | nil => exact absurd hr hne
    | cons r0 rs => simp [stagedOf, hk, ht, hr]
  exact ⟨_, translate_page_prop_event env pid fl tl page _ hret hstage
    (List.ne_nil_of_mem hentry), hentry⟩

/-- The two-run rich_text property of the C5 witness page. -/
def pvC5 : PropertyValue :=
  ⟨"rich_text", [⟨"text", "Bonjour", "Bonjour"⟩, ⟨"text", " le monde", " le monde"⟩], none⟩

/-- The C5 witness page. -/
def pageC5 : Page := ⟨"p5", [("Desc", pvC5)]⟩

/-- Environment retrieving the C5 witness page. -/
def envC5 : Env := { envBase with pages_retrieve := fun _ => .ok pageC5 }

/-- C5 witness: the two-run rich_text property is staged as one run
holding the translation of the joined plain text. -/
theorem C5_witness :
    ∃ staged, Event.updateProperties "p5" staged ∈ (translate_page envC5 "p5" "fr" "nl").2 ∧
      ("Desc", StagedProperty.richTextProp
        [stubUpper (String.join (pvC5.runs.map TextRun.plain_text))]) ∈ staged :=
  C5_main envC5 stubUpper "p5" "fr" "nl" "Desc" pageC5 pvC5 rfl rfl (by decide) rfl
    (by decide)

/-- C9: when the page is retrieved and the provider is total, a title
property with more than one run is staged — and written through the
issued property update call — as a replacement containing exactly one
run holding the translation of the first run's plain text only; the
staged value does not depend on the later runs. -/
theorem C9_main (env : Env) (f : String → String) (pid fl tl name : String)
    (page : Page) (pv : PropertyValue) (r0 r1 : TextRun) (rest : List TextRun)
    (hret : env.pages_retrieve pid = .ok page)
    (htr : env.translator_translate_text = fun t _ _ => .ok (f t))
    (hmem : (name, pv) ∈ page.properties)
    (hk : pv.type = "title") (hruns : pv.runs = r0 :: r1 :: rest) :
    ∃ staged, Event.updateProperties pid staged ∈ (translate_page env pid fl tl).2 ∧
      (name, StagedProperty.titleProp [f r0.plain_text]) ∈ staged := by
  have htr' : translate_text env = fun t _ _ => Except.ok (f t) := by
    funext t a b
    simp [translate_text, htr]
  have hstage : stage_properties (translate_text env) fl tl page.properties =
      .ok (page.properties.filterMap (stagedOf f)) := by
    rw [htr']
    exact stage_properties_total f fl tl page.properties
  have hentry : (name, StagedProperty.titleProp [f r0.plain_text]) ∈
      page.properties.filterMap (stagedOf f) := by
    refine List.mem_filterMap.mpr ⟨(name, pv), hmem, ?_⟩
    simp [stagedOf, hk, hruns]
  exact ⟨_, translate_page_prop_event env pid fl tl page _ hret hstage
    (List.ne_nil_of_mem hentry), hentry⟩

/-- The two-run title property of the C9 witness page. -/
def pvC9 : PropertyValue :=
  ⟨"title", [⟨"text", "Bonjour", "Bonjour"⟩, ⟨"text", " le monde", " le monde"⟩], none⟩

/-- The C9 witness page. -/
def pageC9 : Page := ⟨"p9", [("Name", pvC9)]⟩

/-- Environment retrieving the C9 witness page. -/
def envC9 : Env := { envBase with pages_retrieve := fun _ => .ok pageC9 }

/-- C9 witness: only the first run of the two-run title is translated
and staged; the second run's text is dropped. -/
theorem C9_witness :
    ∃ staged, Event.updateProperties "p9" staged ∈ (translate_page envC9 "p9" "fr" "nl").2 ∧
      ("Name", StagedProperty.titleProp [stubUpper "Bonjour"]) ∈ staged :=
  C9_main envC9 stubUpper "p9" "fr" "nl" "Name" pageC9 pvC9
    ⟨"text", "Bonjour", "Bonjour"⟩ ⟨"text", " le monde", " le monde"⟩ [] rfl rfl
    (by decide) rfl rfl

/-! ### Final metadata stamp (claim C7) -/

/-- Every event the block loop records is a block update. -/
theorem process_blocks_events_are_blocks (env : Env) (fl tl : String) :
    ∀ (blocks : List Block) (ev : Event), ev ∈ (process_blocks env fl tl blocks).2 →
      ∃ bid p, ev = Event.updateBlock bid p := by
  intro blocks
  induction blocks with
  | nil => intro ev h; simp [process_blocks] at h
  | cons b rest ih =>
    intro ev h
    simp only [process_blocks] at h
    cases htb : translate_block (translate_text env) b fl tl with
    | error e => simp [htb] at h
    | ok ob =>
      cases ob with
      | none => simp only [htb] at h; exact ih ev h
      | some tb =>
        simp only [htb] at h
        cases hu : env.blocks_update b.id tb with
        | error e =>
          simp only [hu] at h
          simp at h
          exact ⟨b.id, tb, h⟩
        | ok u =>
          simp only [hu] at h
          rcases List.mem_cons.mp h with heq | hmem
          · exact ⟨b.id, tb, heq⟩
          · exact ih ev hmem

/-- Environment for the C7 counterexample: an empty-property page whose
single paragraph child fails to translate. -/
def envC7 : Env :=
  { envBase with
    blocks_children_list := fun _ =>
      .ok [⟨"b1", "paragraph", [⟨"text", "Bonjour", "Bonjour"⟩]⟩],
    translator_translate_text := fun _ _ _ => .error "provider down" }

/-- C7 counterexample: in this run a block-translation step fails, the
outcome is an error, and the final metadata update (Langue and Statut
"Traduit") is never attempted — no update call carrying the final
metadata payload is issued, contradicting the claim that the final
update is attempted unconditionally. -/
theorem C7_counterexample :
    (translate_page envC7 "p7" "fr" "nl").1.status = "error" ∧
    Event.updateProperties "p7" (finalMetaProps "nl") ∉
      (translate_page envC7 "p7" "fr" "nl").2 := by
  decide

/-- C7 (amended): once retrieval, staging, the property write and the
child listing have succeeded, the final metadata update (Langue set to
the display name or raw code of the target language, Statut set to
"Traduit") is attempted exactly when the block loop raised no error; a
failing block-translation or block-update step instead yields the error
outcome, and the final update is not attempted. -/
theorem C7_main (env : Env) (pid fl tl : String) (page : Page)
    (staged : List (String × StagedProperty)) (blocks : List Block)
    (h1 : env.pages_retrieve pid = .ok page)
    (h2 : stage_properties (translate_text env) fl tl page.properties = .ok staged)
    (h3 : propUpdateResult env pid staged = .ok ())
    (h4 : env.blocks_children_list pid = .ok blocks) :
    ((process_blocks env fl tl blocks).1 = .ok () →
      Event.updateProperties pid (finalMetaProps tl) ∈
        (translate_page env pid fl tl).2) ∧
    (∀ e, (process_blocks env fl tl blocks).1 = .error e →
      (translate_page env pid fl tl).1.status = "error" ∧
      Event.updateProperties pid (finalMetaProps tl) ∉
        (translate_page env pid fl tl).2) := by
  constructor
  · intro hok
    simp only [translate_page, h1, h2, h3, h4, hok]
    cases hfin : env.pages_update pid (finalMetaProps tl) with
    | error e => simp only [hfin]; simp
    | ok u => simp only [hfin]; simp
  · intro e herr
    simp only [translate_page, h1, h2, h3, h4, herr]
    refine ⟨by simp, ?_⟩
    intro hin
    rcases List.mem_append.mp hin with hp | hb
    · have := mem_propUpdateEvents pid staged _ hp
      simp only [Event.updateProperties.injEq] at this
      exact staged_ne_finalMeta (translate_text env) fl tl tl page.properties staged h2
        this.2.symm
    · obtain ⟨bid, p, hbp⟩ := process_blocks_events_are_blocks env fl tl blocks _ hb
      simp at hbp

/-- C7 witness: with an all-success environment and an empty child
list, the amended theorem yields the attempted final metadata update. -/
theorem C7_witness :
    Event.updateProperties "p7w" (finalMetaProps "nl") ∈
      (translate_page envBase "p7w" "fr" "nl").2 :=
  (C7_main envBase "p7w" "fr" "nl" ⟨"p7w", []⟩ [] [] rfl rfl rfl rfl).1 rfl

/-! ### Outcome isolation and the batch loop (claim C1) -/

/-- The exception messages the environment can raise: one of its
operations fails with that message on some input. -/
def EnvRaises (env : Env) (e : String) : Prop :=
  (∃ pid, env.pages_retrieve pid = .error e) ∨
  (∃ t a b, env.translator_translate_text t a b = .error e) ∨
  (∃ pid ps, env.pages_update pid ps = .error e) ∨
  (∃ pid, env.blocks_children_list pid = .error e) ∨
  (∃ bid p, env.blocks_update bid p = .error e)

/-- An error of the run loop is a provider error. -/
theorem translate_runs_error (tr : String → String → String → Except String String)
    (fl tl : String) :
    ∀ runs e, translate_runs tr fl tl runs = .error e →
      ∃ t a b, tr t a b = .error e := by
  intro runs
  induction runs with
  | nil => intro e h; simp [translate_runs] at h
  | cons r rest ih =>
    intro e h
    simp only [translate_runs] at h
    by_cases hr : r.type = "text"
    · rw [if_pos hr] at h
      cases htr : tr r.content fl tl with
      | error e' =>
        simp only [htr, Except.error.injEq] at h
        subst h
        exact ⟨r.content, fl, tl, htr⟩
      | ok t =>
        simp only [htr] at h
        cases hrest : translate_runs tr fl tl rest with
        | error e' =>
          simp only [hrest, Except.error.injEq] at h
          subst h
          exact ih _ hrest
        | ok rs => simp only [hrest] at h; simp at h
    · rw [if_neg hr] at h
      cases hrest : translate_runs tr fl tl rest with
      | error e' =>
        simp only [hrest, Except.error.injEq] at h
        subst h
        exact ih _ hrest
      | ok rs => simp only [hrest] at h; simp at h

/-- An error of translate_block is a provider error. -/
theorem translate_block_error (tr : String → String → String → Except String String)
    (block : Block) (fl tl e : String)
    (h : translate_block tr block fl tl = .error e) :
    ∃ t a b, tr t a b = .error e := by
  simp only [translate_block] at h
  by_cases hk : block.type ∈ TRANSLATABLE_BLOCK_TYPES
  · rw [if_pos hk] at h
    cases hruns : translate_runs tr fl tl block.rich_text with
    | error e' =>
      simp only [hruns, Except.error.injEq] at h
      subst h
      exact translate_runs_error tr fl tl block.rich_text _ hruns
    | ok rs => simp only [hruns] at h; simp at h
  · rw [if_neg hk] at h
    simp at h

/-- An error of the property loop is a provider error. -/
theorem stage_properties_error (tr : String → String → String → Except String String)
    (fl tl : String) :
    ∀ props e, stage_properties tr fl tl props = .error e →
      ∃ t a b, tr t a b = .error e := by
  intro props
  induction props with
  | nil => intro e h; simp [stage_properties] at h
  | cons p rest ih =>
    obtain ⟨name, pv⟩ := p
    intro e h
    simp only [stage_properties] at h
    by_cases ht : pv.type = "title"
    · rw [if_pos ht] at h
      cases hr : pv.runs with
      | nil => simp only [hr] at h; exact ih e h
      | cons r0 rs =>
        simp only [hr] at h
        cases htr : tr r0.plain_text fl tl with
        | error e' =>
          simp only [htr, Except.error.injEq] at h
          subst h
          exact ⟨_, _, _, htr⟩
        | ok t =>
          simp only [htr] at h
          cases hrest : stage_properties tr fl tl rest with
          | error e' =>
            simp only [hrest, Except.error.injEq] at h
            subst h
            exact ih _ hrest
          | ok staged => simp only [hrest] at h; simp at h
    · rw [if_neg ht] at h
      by_cases hrt : pv.type = "rich_text"
      · rw [if_pos hrt] at h
        cases hr : pv.runs with
        | nil => simp only [hr] at h; exact ih e h
        | cons r0 rs =>
          simp only [hr] at h
          cases htr : tr (String.join ((r0 :: rs).map TextRun.plain_text)) fl tl with
          | error e' =>
            simp only [htr, Except.error.injEq] at h
            subst h
            exact ⟨_, _, _, htr⟩
          | ok t =>
            simp only [htr] at h
            cases hrest : stage_properties tr fl tl rest with
            | error e' =>
              simp only [hrest, Except.error.injEq] at h
              subst h
              exact ih _ hrest
            | ok staged => simp only [hrest] at h; simp at h
      · rw [if_neg hrt] at h
        exact ih e h

/-- An error of the conditional property write is a page update error. -/
theorem propUpdateResult_error (env : Env) (pid : String)
    (staged : List (String × StagedProperty)) (e : String)
    (h : propUpdateResult env pid staged = .error e) :
    env.pages_update pid staged = .error e := by
  cases staged with
  | nil => simp [propUpdateResult] at h
  | cons a as => simpa [propUpdateResult] using h

/-- An error of the block loop is an exception the environment can
raise. -/
theorem process_blocks_error (env : Env) (fl tl : String) :
    ∀ blocks e, (process_blocks env fl tl blocks).1 = .error e →
      EnvRaises env e := by
  intro blocks
  induction blocks with
  | nil => intro e h; simp [process_blocks] at h
  | cons b rest ih =>
    intro e h
    simp only [process_blocks] at h
    cases htb : translate_block (translate_text env) b fl tl with
    | error e' =>
      simp only [htb, Except.error.injEq] at h
      subst h
      exact Or.inr (Or.inl (translate_block_error (translate_text env) b fl tl _ htb))
    | ok ob =>
      cases ob with
      | none => simp only [htb] at h; exact ih e h
      | some tb =>
        simp only [htb] at h
        cases hu : env.blocks_update b.id tb with
        | error e' =>
          simp only [hu, Except.error.injEq] at h
          subst h
          exact Or.inr (Or.inr (Or.inr (Or.inr ⟨b.id, tb, hu⟩)))
        | ok u =>
          simp only [hu] at h
          exact ih e h

/-- C1 backbone: every outcome of translate_page carries the requested
page id, and is either a success with no message or an error carrying
the message of an exception the environment can raise. -/
theorem translate_page_char (env : Env) (pid fl tl : String) :
    (translate_page env pid fl tl).1.page_id = pid ∧
    (((translate_page env pid fl tl).1.status = "success" ∧
        (translate_page env pid fl tl).1.error_message = none) ∨
     ((translate_page env pid fl tl).1.status = "error" ∧
        ∃ e, (translate_page env pid fl tl).1.error_message = some e ∧
          EnvRaises env e)) := by
  cases hret : env.pages_retrieve pid with
  | error e =>
    have heq : (translate_page env pid fl tl).1 = ⟨pid, "error", some e⟩ := by
      simp only [translate_page, hret]
    rw [heq]
    exact ⟨rfl, Or.inr ⟨rfl, e, rfl, Or.inl ⟨pid, hret⟩⟩⟩
  | ok page =>
    cases hstage : stage_properties (translate_text env) fl tl page.properties with
    | error e =>
      have heq : (translate_page env pid fl tl).1 = ⟨pid, "error", some e⟩ := by
        simp only [translate_page, hret, hstage]
      rw [heq]
      exact ⟨rfl, Or.inr ⟨rfl, e, rfl, Or.inr (Or.inl
        (stage_properties_error (translate_text env) fl tl page.properties e hstage))⟩⟩
    | ok staged =>
      cases hprop : propUpdateResult env pid staged with
      | error e =>
        have heq : (translate_page env pid fl tl).1 = ⟨pid, "error", some e⟩ := by
          simp only [translate_page, hret, hstage, hprop]
        rw [heq]
        exact ⟨rfl, Or.inr ⟨rfl, e, rfl, Or.inr (Or.inr (Or.inl
          ⟨pid, staged, propUpdateResult_error env pid staged e hprop⟩))⟩⟩
      | ok u =>
        cases hlist : env.blocks_children_list pid with
        | error e =>
          have heq : (translate_page env pid fl tl).1 = ⟨pid, "error", some e⟩ := by
            simp only [translate_page, hret, hstage, hprop, hlist]
          rw [heq]
          exact ⟨rfl, Or.inr ⟨rfl, e, rfl, Or.inr (Or.inr (Or.inr (Or.inl ⟨pid, hlist⟩)))⟩⟩
        | ok blocks =>
          cases hpb : (process_blocks env fl tl blocks).1 with
          | error e =>
            have heq : (translate_page env pid fl tl).1 = ⟨pid, "error", some e⟩ := by
              simp only [translate_page, hret, hstage, hprop, hlist, hpb]
            rw [heq]
            exact ⟨rfl, Or.inr ⟨rfl, e, rfl,
              process_blocks_error env fl tl blocks e hpb⟩⟩
          | ok u2 =>
            cases hfin : env.pages_update pid (finalMetaProps tl) with
            | error e =>
              have heq : (translate_page env pid fl tl).1 = ⟨pid, "error", some e⟩ := by
                simp only [translate_page, hret, hstage, hprop, hlist, hpb, hfin]
              rw [heq]
              exact ⟨rfl, Or.inr ⟨rfl, e, rfl, Or.inr (Or.inr (Or.inl
                ⟨pid, finalMetaProps tl, hfin⟩))⟩⟩
            | ok u3 =>
              have heq : (translate_page env pid fl tl).1 = ⟨pid, "success", none⟩ := by
                simp only [translate_page, hret, hstage, hprop, hlist, hpb, hfin]
              rw [heq]
              exact ⟨rfl, Or.inl ⟨rfl, rfl⟩⟩

/-- An environment on which every operation succeeds. -/
def EnvAllOk (env : Env) : Prop :=
  (∀ pid, ∃ p, env.pages_retrieve pid = .ok p) ∧
  (∀ t a b, ∃ s, env.translator_translate_text t a b = .ok s) ∧
  (∀ pid ps, env.pages_update pid ps = .ok ()) ∧
  (∀ pid, ∃ bs, env.blocks_children_list pid = .ok bs) ∧
  (∀ bid p, env.blocks_update bid p = .ok ())

/-- With a never-failing provider the run loop succeeds. -/
theorem translate_runs_ok (tr : String → String → String → Except String String)
    (fl tl : String) (h : ∀ t a b, ∃ s, tr t a b = .ok s) :
    ∀ runs, ∃ rs, translate_runs tr fl tl runs = .ok rs := by
  intro runs
  induction runs with
  | nil => exact ⟨[], rfl⟩
  | cons r rest ih =>
    obtain ⟨rs, hrs⟩ := ih
    by_cases hr : r.type = "text"
    · obtain ⟨s, hs⟩ := h r.content fl tl
      exact ⟨{ r with content := s } :: rs, by simp [translate_runs, hr, hs, hrs]⟩
    · exact ⟨r :: rs, by simp [translate_runs, hr, hrs]⟩

/-- With a never-failing provider translate_block succeeds. -/
theorem translate_block_ok (tr : String → String → String → Except String String)
    (fl tl : String) (block : Block) (h : ∀ t a b, ∃ s, tr t a b = .ok s) :
    ∃ ob, translate_block tr block fl tl = .ok ob := by
  by_cases hk : block.type ∈ TRANSLATABLE_BLOCK_TYPES
  · obtain ⟨rs, hrs⟩ := translate_runs_ok tr fl tl h block.rich_text
    exact ⟨some { block with rich_text := rs }, by simp [translate_block, hk, hrs]⟩
  · exact ⟨none, by simp [translate_block, hk]⟩

/-- With a never-failing provider the property loop succeeds. -/
theorem stage_properties_ok (tr : String → String → String → Except String String)
    (fl tl : String) (h : ∀ t a b, ∃ s, tr t a b = .ok s) :
    ∀ props, ∃ staged, stage_properties tr fl tl props = .ok staged := by
  intro props
  induction props with
  | nil => exact ⟨[], rfl⟩
  | cons p rest ih =>
    obtain ⟨name, pv⟩ := p
    obtain ⟨staged, hstaged⟩ := ih
    by_cases ht : pv.type = "title"
    · cases hr : pv.runs with
      | nil => exact ⟨staged, by simp [stage_properties, ht, hr, hstaged]⟩
      | cons r0 rs =>
        obtain ⟨s, hs⟩ := h r0.plain_text fl tl
        exact ⟨(name, StagedProperty.titleProp [s]) :: staged,
          by simp [stage_properties, ht, hr, hs, hstaged]⟩
    · by_cases hrt : pv.type = "rich_text"
      · cases hr : pv.runs with
        | nil => exact ⟨staged, by simp [stage_properties, ht, hrt, hr, hstaged]⟩
        | cons r0 rs =>
          obtain ⟨s, hs⟩ :=
            h (String.join (r0.plain_text :: List.map TextRun.plain_text rs)) fl tl
          exact ⟨(name, StagedProperty.richTextProp [s]) :: staged,
            by simp [stage_properties, ht, hrt, hr, hs, hstaged]⟩
      · exact ⟨staged, by simp [stage_properties, ht, hrt, hstaged]⟩

/-- With never-failing provider and block updates, the block loop
succeeds. -/
theorem process_blocks_ok (env : Env) (fl tl : String)
    (htr : ∀ t a b, ∃ s, translate_text env t a b = .ok s)
    (hbu : ∀ bid p, env.blocks_update bid p = .ok ()) :
    ∀ blocks, (process_blocks env fl tl blocks).1 = .ok () := by
  intro blocks
  induction blocks with
  | nil => rfl
  | cons b rest ih =>
    obtain ⟨ob, hob⟩ := translate_block_ok (translate_text env) fl tl b htr
    cases ob with
    | none => simp [process_blocks, hob, ih]
    | some tb => simp [process_blocks, hob, hbu b.id tb, ih]

/-- When every environment operation succeeds, translate_page reports
success. -/
theorem translate_page_success (env : Env) (hok : EnvAllOk env)
    (pid fl tl : String) :
    (translate_page env pid fl tl).1.status = "success" := by
  obtain ⟨hret, htr, hpu, hlist, hbu⟩ := hok
  obtain ⟨page, hp⟩ := hret pid
  obtain ⟨staged, hs⟩ :=
    stage_properties_ok (translate_text env) fl tl htr page.properties
  obtain ⟨blocks, hb⟩ := hlist pid
  have hprop : propUpdateResult env pid staged = .ok () := by
    cases staged with
    | nil => rfl
    | cons a as => simpa [propUpdateResult] using hpu pid (a :: as)
  have hpb := process_blocks_ok env fl tl htr hbu blocks
  simp [translate_page, hp, hs, hprop, hb, hpb, hpu pid (finalMetaProps tl)]

/-- C1: translate_specific_pages returns one outcome per requested page
id, in order; each outcome carries its page id and is either a success
with no error message or an error whose message is non-empty (given
that the environment never raises an empty exception message); and when
every environment operation succeeds, every outcome is a success. -/
theorem C1_main (env : Env) (ids : List String) (fl tl : String)
    (hne : ∀ e, EnvRaises env e → e ≠ "") :
    (translate_specific_pages env ids fl tl).length = ids.length ∧
    (∀ (i : Nat) (o : Outcome), (translate_specific_pages env ids fl tl)[i]? = some o →
      ids[i]? = some o.page_id ∧
      ((o.status = "success" ∧ o.error_message = none) ∨
       (o.status = "error" ∧ ∃ m, o.error_message = some m ∧ m ≠ ""))) ∧
    (EnvAllOk env → ∀ o ∈ translate_specific_pages env ids fl tl,
      o.status = "success") := by
  refine ⟨by simp [translate_specific_pages], ?_, ?_⟩
  · intro i o h
    simp only [translate_specific_pages, List.getElem?_map] at h
    cases hid : ids[i]? with
    | none => rw [hid] at h; simp at h
    | some pid =>
      rw [hid] at h
      simp only [Option.map_some', Option.some.injEq] at h
      obtain ⟨hpid, hstat⟩ := translate_page_char env pid fl tl
      subst h
      rw [hpid]
      refine ⟨rfl, ?_⟩
      rcases hstat with ⟨h1, h2⟩ | ⟨h1, e, h2, h3⟩
      · exact Or.inl ⟨h1, h2⟩
      · exact Or.inr ⟨h1, e, h2, hne e h3⟩
  · intro hok o ho
    simp only [translate_specific_pages] at ho
    obtain ⟨pid, hpid, rfl⟩ := List.mem_map.mp ho
    exact translate_page_success env hok pid fl tl

/-- Environment for the C1 witness: page id2 has a title whose provider
call fails with a quota error; every other page succeeds. -/
def envC1 : Env :=
  { envBase with
    pages_retrieve := fun pid =>
      .ok (if pid = "id2"
        then ⟨pid, [("Name", ⟨"title", [⟨"text", "Oops", "Oops"⟩], none⟩)]⟩
        else ⟨pid, [("Name", ⟨"title", [⟨"text", "Bonjour", "Bonjour"⟩], none⟩)]⟩),
    translator_translate_text := fun t _ _ =>
      if t = "Oops" then .error "quota exceeded" else .ok (stubUpper t) }

/-- Every exception the C1 witness environment raises has a non-empty
message. -/
theorem envC1_nonempty : ∀ e, EnvRaises envC1 e → e ≠ "" := by
  intro e h
  rcases h with ⟨pid, h⟩ | ⟨t, a, b, h⟩ | ⟨pid, ps, h⟩ | ⟨pid, h⟩ | ⟨bid, p, h⟩
  · simp [envC1] at h
  · simp only [envC1] at h
    by_cases ht : t = "Oops"
    · rw [if_pos ht] at h
      simp only [Except.error.injEq] at h
      subst h
      decide
    · rw [if_neg ht] at h
      simp at h
  · simp [envC1, envBase] at h
  · simp [envC1, envBase] at h
  · simp [envC1, envBase] at h

/-- C1 witness: the spec scenario — a two-id manual batch whose second
page fails on the provider returns two outcomes in order: a success for
id1 and an error with the non-empty quota message for id2. -/
theorem C1_witness :
    (translate_specific_pages envC1 ["id1", "id2"] "fr" "nl").length =
      (["id1", "id2"] : List String).length ∧
    translate_specific_pages envC1 ["id1", "id2"] "fr" "nl" =
      [⟨"id1", "success", none⟩, ⟨"id2", "error", some "quota exceeded"⟩] :=
  ⟨(C1_main envC1 ["id1", "id2"] "fr" "nl" envC1_nonempty).1, by decide⟩

end Notion
